import Mathlib

/-!
Verification of the IndoClimate retrieval-context / session-store core.

This file gives a shallow embedding of the TypeScript sources
(`services/SessionStorage.ts`, `services/chatService.ts` /
`ragProcessingService.ts`, `utils/requestUtils.ts`) and proves or refutes
the frozen specification claims about them.  Text is modelled as
`List Char`; JavaScript numbers that matter are modelled as `Nat`, `Int`
or `ℚ` with the relevant JS conversions (32-bit wrapping, truthiness)
made explicit.
-/

namespace IndoClimate

/-! ## JavaScript string primitives -/

/-- Characters removed by JavaScript `String.prototype.trim` (the ASCII
whitespace subset, which covers every input appearing in this file). -/
def jsWhitespace (c : Char) : Bool :=
  c = ' ' || c = '\t' || c = '\n' || c = '\r' || c = '\x0b' || c = '\x0c'

/-- Model of JavaScript `str.trim()`: drop whitespace from both ends. -/
def jsTrim (l : List Char) : List Char :=
  ((l.dropWhile jsWhitespace).reverse.dropWhile jsWhitespace).reverse

/-- The last `n` elements of a list (`arr.slice(-n)` for `n ≥ 1`). -/
def lastN (n : Nat) (l : List α) : List α :=
  l.drop (l.length - n)

/-- Model of JavaScript `arr.slice(-n)` for a `Nat` argument: JS evaluates
`slice(-0)` as `slice(0)`, returning the whole array. -/
def jsSliceNeg (n : Nat) (l : List α) : List α :=
  if n = 0 then l else lastN n l

/-! ## SessionStorage.extractQueryFromMessage (src/unnamed/part_001, regex `/\$([^$]+)\$/`) -/

/-- First match of the regex `\$([^$]+)\$` (leftmost `$`-wrapped nonempty
run of non-`$` characters), returning the captured group. -/
def firstWrapped : List Char → Option (List Char)
  | [] => none
  | c :: rest =>
    if c = '$' then
      let body := rest.takeWhile (fun d => d ≠ '$')
      match rest.drop body.length with
      | '$' :: _ => if body.isEmpty then firstWrapped rest else some body
      | _ => firstWrapped rest
    else firstWrapped rest

/-- `SessionStorage.extractQueryFromMessage`: return the trimmed first
`$...$`-wrapped substring, or the whole content when no wrapper matches. -/
def extractQueryFromMessage (content : List Char) : List Char :=
  match firstWrapped content with
  | some body => jsTrim body
  | none => content

/-! ## RAGProcessingService.findOverlap / mergeChunks (src/services/chatService.ts:575-612) -/

/-- One candidate overlap length check: does the length-`len` suffix of
`t1` equal (case-insensitively) the length-`len` prefix of `t2`? -/
def overlapEq (t1 t2 : List Char) (len : Nat) : Prop :=
  (lastN len t1).map Char.toLower = (t2.take len).map Char.toLower

instance (t1 t2 : List Char) (len : Nat) : Decidable (overlapEq t1 t2 len) :=
  inferInstanceAs (Decidable (_ = _))

/-- The `for (let len = maxPossibleOverlap; len >= 1; len--)` search loop of
`findOverlap`: try lengths from `n` down to `1`, return the first match. -/
def findOverlapAux (t1 t2 : List Char) : Nat → Nat
  | 0 => 0
  | len + 1 =>
    if overlapEq t1 t2 (len + 1) then len + 1
    else findOverlapAux t1 t2 len

/-- `RAGProcessingService.findOverlap`: trim both texts, then search for the
longest case-insensitive suffix/prefix overlap, from `min` of the trimmed
lengths down to 1. -/
def findOverlap (text1 text2 : List Char) : Nat :=
  let t1 := jsTrim text1
  let t2 := jsTrim text2
  findOverlapAux t1 t2 (min t1.length t2.length)

/-- `RAGProcessingService.mergeChunks`: if an overlap of length `L > 0` was
found, drop the last `L` characters of the *trimmed* first chunk
(`chunk1.trim().slice(0, -L)`) and append the second chunk; otherwise join
the trimmed first chunk and the second chunk with a single space. -/
def mergeChunks (chunk1 chunk2 : List Char) : List Char :=
  let overlapLength := findOverlap chunk1 chunk2
  if overlapLength > 0 then
    let t1 := jsTrim chunk1
    t1.take (t1.length - overlapLength) ++ chunk2
  else
    jsTrim chunk1 ++ (' ' :: chunk2)

/-! ## createSimpleHash (src/utils/requestUtils.ts:33-41 and the private copy
in src/unnamed/part_001:148-156) -/

/-- Wrap an integer to the signed 32-bit range, as JavaScript `x | 0` /
`x & x` does. -/
def toInt32 (n : Int) : Int :=
  (n + 2 ^ 31) % 2 ^ 32 - 2 ^ 31

/-- Digit characters used by JavaScript `Number.prototype.toString(36)`. -/
def digit36 (d : Nat) : Char :=
  if d < 10 then Char.ofNat ('0'.toNat + d) else Char.ofNat ('a'.toNat + d - 10)

/-- Digit loop for base-36 rendering, fuelled (the fuel bounds the digit
count; `natToBase36` supplies `n` itself, far more than enough). -/
def natToBase36Aux : Nat → Nat → List Char
  | 0, n => [digit36 (n % 36)]
  | fuel + 1, n =>
    if n < 36 then [digit36 n]
    else natToBase36Aux fuel (n / 36) ++ [digit36 (n % 36)]

/-- Base-36 rendering of a natural number, as `n.toString(36)` produces for
a non-negative integer. -/
def natToBase36 (n : Nat) : List Char :=
  natToBase36Aux n n

/-- `createSimpleHash` from `utils/requestUtils.ts`: the `((hash << 5) -
hash) + char` loop over UTF-16 code units with 32-bit wrapping, then
`Math.abs(hash).toString(36)`.  The `<< 5` shift itself wraps to 32 bits. -/
def requestUtils_createSimpleHash (s : List Char) : List Char :=
  natToBase36
    (Int.natAbs (s.foldl (fun hash c => toInt32 (toInt32 (hash * 32) - hash + c.toNat)) 0))

/-- The private `SessionStorage.createSimpleHash` from
`services/SessionStorage.ts`, embedded from its own source text. -/
def sessionStorage_createSimpleHash (s : List Char) : List Char :=
  natToBase36
    (Int.natAbs (s.foldl (fun hash c => toInt32 (toInt32 (hash * 32) - hash + c.toNat)) 0))

/-- `getClientConnectionFingerprint` from `utils/requestUtils.ts`:
`hash(ip) + "_" + hash(userAgent)`. -/
def requestUtils_fingerprint (ipAddress userAgent : List Char) : List Char :=
  requestUtils_createSimpleHash ipAddress ++ '_' :: requestUtils_createSimpleHash userAgent

/-- The fingerprint built inside `SessionStorage.getOrCreateClientConnection`:
`hash(ip) + "_" + hash(userAgent)` using the private hash. -/
def sessionStorage_fingerprint (ipAddress userAgent : List Char) : List Char :=
  sessionStorage_createSimpleHash ipAddress ++ '_' :: sessionStorage_createSimpleHash userAgent

/-! ## The session store (src/unnamed/part_001, services/SessionStorage.ts)

JavaScript `Map`s are modelled as association lists with `Map.set`
semantics (`mapSet` replaces in place when the key exists, otherwise
appends) and `Map.get` as first-match lookup.  `Date` values are `Nat`
millisecond timestamps; each operation takes the current time `now`
explicitly. -/

inductive Role
  | user
  | assistant
deriving DecidableEq

/-- A chat message (`HumanMessage` params `Role.user`, `AIMessage` params
`Role.assistant`). -/
structure Message where
  role : Role
  content : List Char
deriving DecidableEq

inductive SessionType
  | general
  | rag
deriving DecidableEq

/-- `SessionMetadata` from `services/SessionStorage.ts`. -/
structure SessionMetadata where
  userId : Option (List Char)
  createdAt : Nat
  lastActive : Nat
  userAgent : Option (List Char)
  ipAddress : Option (List Char)
  sessionType : SessionType
  extra : List (List Char × List Char)
deriving DecidableEq

/-- `Session` from `services/SessionStorage.ts`. -/
structure Session where
  id : List Char
  messages : List Message
  metadata : SessionMetadata
deriving DecidableEq

/-- `UserSessionData` from `services/SessionStorage.ts`. -/
structure UserSessionData where
  userId : List Char
  sessionIds : List (List Char)
  createdAt : Nat
  lastActive : Nat
deriving DecidableEq

/-- The mutable state of a `SessionStorage` instance: the `sessions` and
`userSessions` maps plus the `maxMessages` window size. -/
structure StorageState where
  maxMessages : Nat
  sessions : List (List Char × Session)
  userSessions : List (List Char × UserSessionData)
deriving DecidableEq

/-- JavaScript `Map.prototype.set`: replace the value in place when the key
is present, otherwise append the new entry. -/
def mapSet [DecidableEq κ] (k : κ) (v : α) : List (κ × α) → List (κ × α)
  | [] => [(k, v)]
  | p :: rest => if p.1 = k then (k, v) :: rest else p :: mapSet k v rest

/-- JavaScript `Map.prototype.get` (as `Option`). -/
def mapGet [DecidableEq κ] (k : κ) : List (κ × α) → Option α
  | [] => none
  | p :: rest => if p.1 = k then some p.2 else mapGet k rest

/-- `new SessionStorage(maxMessages)`: empty maps. -/
def SessionStorageInit (maxMessages : Nat) : StorageState :=
  { maxMessages := maxMessages, sessions := [], userSessions := [] }

/-- The private `associateSessionWithUser`, acting on the `userSessions`
map: create the user record if absent, add the session id if missing,
refresh the user's `lastActive`. -/
def assocUserSessions (now : Nat) (sessionId userId : List Char)
    (us : List (List Char × UserSessionData)) : List (List Char × UserSessionData) :=
  let us1 :=
    if (mapGet userId us).isNone then
      mapSet userId
        { userId := userId, sessionIds := [], createdAt := now, lastActive := now } us
    else us
  match mapGet userId us1 with
  | some userData =>
    let userData1 :=
      if sessionId ∈ userData.sessionIds then userData
      else { userData with sessionIds := userData.sessionIds ++ [sessionId] }
    mapSet userId { userData1 with lastActive := now } us1
  | none => us1

/-- `SessionStorage.createSession(sessionId, userId?, additionalMetadata?)`:
fresh empty session with current timestamps, registered in the sessions map
and (when a user id is given) in the user index. -/
def createSession (now : Nat) (sessionId : List Char) (userId : Option (List Char))
    (additionalMetadata : List (List Char × List Char)) (st : StorageState) :
    Session × StorageState :=
  let session : Session :=
    { id := sessionId
      messages := []
      metadata :=
        { userId := userId, createdAt := now, lastActive := now,
          userAgent := none, ipAddress := none, sessionType := .general,
          extra := additionalMetadata } }
  let st1 := { st with sessions := mapSet sessionId session st.sessions }
  match userId with
  | some uid =>
    (session, { st1 with userSessions := assocUserSessions now sessionId uid st1.userSessions })
  | none => (session, st1)

/-- `SessionStorage.saveSession(session)`: refresh the session's
`lastActive`, write it back under `session.id`, and re-register it with its
user when it has one. -/
def saveSession (now : Nat) (session : Session) (st : StorageState) : StorageState :=
  let session1 := { session with metadata := { session.metadata with lastActive := now } }
  let st1 := { st with sessions := mapSet session.id session1 st.sessions }
  match session1.metadata.userId with
  | some uid =>
    { st1 with userSessions := assocUserSessions now session.id uid st1.userSessions }
  | none => st1

/-- The private `trimHistory`: when the message list exceeds `maxMessages`,
keep `messages.slice(-maxMessages)`. -/
def trimHistory (maxMessages : Nat) (messages : List Message) : List Message :=
  if messages.length > maxMessages then jsSliceNeg maxMessages messages else messages

/-- The redaction applied by `addMessage` before storing: `HumanMessage`
content goes through `extractQueryFromMessage`; other messages are kept
as-is. -/
def cleanMessage (m : Message) : Message :=
  match m.role with
  | .user => { role := .user, content := extractQueryFromMessage m.content }
  | .assistant => m

/-- `SessionStorage.addMessage(sessionId, message)`: lazily create the
session, append the cleaned message, trim to the sliding window, save. -/
def addMessage (now : Nat) (sessionId : List Char) (message : Message)
    (st : StorageState) : StorageState :=
  let sessionAndState :=
    match mapGet sessionId st.sessions with
    | some s => (s, st)
    | none => createSession now sessionId none [] st
  let session := sessionAndState.1
  let st1 := sessionAndState.2
  let session2 :=
    { session with messages := trimHistory st.maxMessages (session.messages ++ [cleanMessage message]) }
  saveSession now session2 st1

/-- The effect of one `addMessage` call on a session's message list alone:
append the cleaned message, then trim to the window. -/
def listAddMessage (maxMessages : Nat) (l : List Message) (m : Message) : List Message :=
  trimHistory maxMessages (l ++ [cleanMessage m])

/-- One iteration of the `clearInactiveSessions` loop body: when the
session's inactive time exceeds the threshold, empty its messages, save it,
and bump the cleared count. -/
def sweepStep (now threshold : Nat) (acc : StorageState × Nat)
    (entry : List Char × Session) : StorageState × Nat :=
  let session := entry.2
  if (now : Int) - (session.metadata.lastActive : Int) > (threshold : Int) then
    (saveSession now { session with messages := [] } acc.1, acc.2 + 1)
  else acc

/-- `SessionStorage.clearInactiveSessions(inactiveThresholdMs)`: run the
loop body over the snapshot of the entries list; return the new state and
the cleared count. -/
def clearInactiveSessions (now threshold : Nat) (st : StorageState) : StorageState × Nat :=
  st.sessions.foldl (sweepStep now threshold) (st, 0)

/-! ## The RAG processing pipeline (src/services/chatService.ts,
`RAGProcessingService`)

The vector store and the language model are external capabilities; the
adjacent-chunk lookup is a function parameter `fetch`, and the evaluator's
reply is the `ids` list parameter of the selection/rendering stage. -/

/-- `ChromaMetadata` from `src/types/chroma.ts`. -/
structure ChromaMeta where
  id : List Char
  document_code : List Char
  current_chunk : Nat
  total_chunks : Nat
  jenis : List Char
  nomor : Int
  tahun : Int
  tentang : List Char
  tanggal_ditetapkan : List Char
  tanggal_berlaku : List Char
  status : List Char
  dasar_hukum : List (List Char)
  view_link : Option (List Char)
deriving DecidableEq

/-- `MergedChunk` from `services/ragProcessingService.ts`. -/
structure MergedChunk where
  content : List Char
  metadata : ChromaMeta
  docNum : Nat
  similarity : ℚ
deriving DecidableEq

/-- The similarity assigned in the `processRAGQuery` loop:
`distances[i] ? 1 - distances[i] : 0`.  JavaScript truthiness makes both a
missing entry **and** a zero distance take the `0` branch. -/
def mkSimilarity (distances : List ℚ) (i : Nat) : ℚ :=
  match distances[i]? with
  | some d => if d ≠ 0 then 1 - d else 0
  | none => 0

/-- `RAGProcessingService.expandChunk`: append the next chunk of the same
document (when one exists and the lookup succeeds) with overlap removed.
`fetch` models `getAdjacentChunk` (`null` and thrown errors both `none`). -/
def expandChunk (fetch : List Char → Nat → Option (List Char))
    (content : List Char) (metadata : ChromaMeta) : List Char :=
  if metadata.current_chunk ≥ metadata.total_chunks - 1 then content
  else
    match fetch metadata.document_code (metadata.current_chunk + 1) with
    | some nextContent => mergeChunks content nextContent
    | none => content

/-- The chunk-building loop of `processRAGQuery` (step 2): for each index
`i`, skip falsy content (including the empty string) or missing metadata,
otherwise expand the chunk and record it with `docNum = i + 1` and the
truthiness-guarded similarity. -/
def buildMergedChunks (fetch : List Char → Nat → Option (List Char))
    (documents : List (List Char)) (metadatas : List ChromaMeta)
    (distances : List ℚ) : List MergedChunk :=
  (List.range documents.length).filterMap fun i =>
    match documents[i]?, metadatas[i]? with
    | some content, some metadata =>
      if content.isEmpty then none
      else
        some
          { content := expandChunk fetch content metadata
            metadata := metadata
            docNum := i + 1
            similarity := mkSimilarity distances i }
    | _, _ => none

/-- Step 3 of `processRAGQuery`: stable sort by similarity, highest first
(`mergedChunks.sort((a, b) => b.similarity - a.similarity)`). -/
def sortBySimilarity (l : List MergedChunk) : List MergedChunk :=
  l.mergeSort (fun a b => decide (b.similarity ≤ a.similarity))

/-- Digit loop for decimal rendering, fuelled like `natToBase36Aux`. -/
def natToDecAux : Nat → Nat → List Char
  | 0, n => [digit36 (n % 10)]
  | fuel + 1, n =>
    if n < 10 then [digit36 n]
    else natToDecAux fuel (n / 10) ++ [digit36 (n % 10)]

/-- Decimal digits of a natural number. -/
def natToDec (n : Nat) : List Char :=
  natToDecAux n n

/-- JavaScript template-literal rendering of an integer. -/
def intToChars (i : Int) : List Char :=
  if i < 0 then '-' :: natToDec i.natAbs else natToDec i.toNat

/-- `RAGProcessingService.formatDocument`: the numbered `[n]` block with the
structured metadata fields and the body text. -/
def formatDocument (chunk : MergedChunk) (docNum : Int) : List Char :=
  "[".data ++ intToChars docNum ++ "]\nJenis: ".data ++ chunk.metadata.jenis ++
    "\nNomor: ".data ++ intToChars chunk.metadata.nomor ++
    "\nTahun: ".data ++ intToChars chunk.metadata.tahun ++
    "\nTentang: ".data ++ chunk.metadata.tentang ++
    "\n\n".data ++ chunk.content ++ "\n\n---".data

/-- JavaScript `Array.prototype.indexOf` (`-1` when absent). -/
def jsIndexOf : List Int → Int → Int
  | [], _ => -1
  | a :: rest, x =>
    if a = x then 0
    else
      let r := jsIndexOf rest x
      if r = -1 then -1 else r + 1

/-- Steps 5-6 of `processRAGQuery`: keep the chunks whose `docNum` is in the
evaluator's `ids`; when that selection is empty, fall back to every merged
chunk. -/
def selectChunks (mergedChunks : List MergedChunk) (ids : List Int) : List MergedChunk :=
  let selected := mergedChunks.filter fun chunk => decide ((chunk.docNum : Int) ∈ ids)
  if selected.isEmpty then mergedChunks else selected

/-- Step 7 of `processRAGQuery`: re-render each selected chunk with
`evaluation.ids.indexOf(chunk.docNum) + 1` as its header number. -/
def renderSelected (mergedChunks : List MergedChunk) (ids : List Int) : List (List Char) :=
  (selectChunks mergedChunks ids).map fun chunk =>
    formatDocument chunk (jsIndexOf ids (chunk.docNum : Int) + 1)

/-- The `finalContext` string: the re-rendered selected chunks joined with
newlines. -/
def finalContextBody (mergedChunks : List MergedChunk) (ids : List Int) : List Char :=
  List.intercalate "\n".data (renderSelected mergedChunks ids)

/-- The fixed bilingual instruction block between the end marker and the
`$`-wrapped question (step 8 of `processRAGQuery`). -/
def instructionBlock : List Char :=
  ("\n___end_context___\n\nIMPORTANT INSTRUCTION / INSTRUKSI PENTING:\n" ++
    "Answer in the SAME LANGUAGE as the question below. If the question is in English, " ++
    "respond in English. If the question is in Indonesian, respond in Indonesian.\n" ++
    "Jawab dalam BAHASA YANG SAMA dengan pertanyaan di bawah. Jika pertanyaan dalam " ++
    "Bahasa Inggris, jawab dalam Bahasa Inggris. Jika pertanyaan dalam Bahasa Indonesia, " ++
    "jawab dalam Bahasa Indonesia.\nquestion/pertanyaan:\n").data

/-- Step 8 of `processRAGQuery`: the final `contextPrompt`, wrapping the
rendered context in the begin/end markers and appending the literal
question in the `$...$` delimiter. -/
def contextPrompt (mergedChunks : List MergedChunk) (ids : List Int)
    (fixedGrammar : List Char) : List Char :=
  "___begin_context___\n".data ++ finalContextBody mergedChunks ids ++
    instructionBlock ++ "$".data ++ fixedGrammar ++ "$".data

/-- Claim C5's spec-side rendering: the selected fragments re-rendered with
fresh sequential numbering starting at `start` (the spec's "1..N in
selection order"), to be compared with the source-side `renderSelected`. -/
def specRenderNumbered (start : Int) : List MergedChunk → List (List Char)
  | [] => []
  | c :: rest => formatDocument c start :: specRenderNumbered (start + 1) rest

/-! ## ChatService.routeQuery JSON handling (src/services/chatService.ts:214-251)

The language-model reply is the `content` parameter; the code-fence
stripping, `JSON.parse` and the fail-safe `catch` are embedded.  `JSON.parse`
is modelled by a recursive-descent validity parser over the JSON grammar;
fallible JavaScript code (the `try`/`catch`) becomes a total function. -/

inductive Json where
  | jnull
  | jbool (b : Bool)
  | jnum (lexeme : List Char)
  | jstr (s : List Char)
  | jarr (elems : List Json)
  | jobj (fields : List (List Char × Json))

/-- JSON whitespace. -/
def jsonWs (c : Char) : Bool :=
  c = ' ' || c = '\t' || c = '\n' || c = '\r'

/-- Parse the exponent tail of a JSON number, if present. -/
def pExpTail (lexeme : List Char) (l : List Char) : Option (Json × List Char) :=
  match l with
  | 'e' :: rest => pExpDigits lexeme rest
  | 'E' :: rest => pExpDigits lexeme rest
  | _ => some (.jnum lexeme, l)
where
  pExpDigits (lexeme : List Char) (l : List Char) : Option (Json × List Char) :=
    let sgnAndRest : List Char × List Char :=
      match l with
      | '+' :: r => (['+'], r)
      | '-' :: r => (['-'], r)
      | _ => ([], l)
    let ds := sgnAndRest.2.takeWhile Char.isDigit
    if ds.isEmpty then none
    else some (.jnum (lexeme ++ 'e' :: sgnAndRest.1 ++ ds), sgnAndRest.2.drop ds.length)

/-- Parse a JSON number (sign, integer part without leading zeros, optional
fraction, optional exponent). -/
def pNum (l : List Char) : Option (Json × List Char) :=
  let negAndRest : List Char × List Char :=
    match l with
    | '-' :: rest => (['-'], rest)
    | _ => ([], l)
  let l1 := negAndRest.2
  let intPart := l1.takeWhile Char.isDigit
  if intPart.isEmpty then none
  else if intPart.length > 1 && intPart.headD '0' = '0' then none
  else
    let l2 := l1.drop intPart.length
    match l2 with
    | '.' :: r =>
      let fr := r.takeWhile Char.isDigit
      if fr.isEmpty then none
      else pExpTail (negAndRest.1 ++ intPart ++ '.' :: fr) (r.drop fr.length)
    | _ => pExpTail (negAndRest.1 ++ intPart) l2

mutual

/-- Parse one JSON value (with leading whitespace). -/
def pValue : Nat → List Char → Option (Json × List Char)
  | 0, _ => none
  | fuel + 1, l =>
    match l.dropWhile jsonWs with
    | [] => none
    | c :: rest =>
      if c = '\x7b' then
        match rest.dropWhile jsonWs with
        | '\x7d' :: rest2 => some (.jobj [], rest2)
        | _ =>
          match pMembers fuel (rest.dropWhile jsonWs) with
          | some (fields, rest2) => some (.jobj fields, rest2)
          | none => none
      else if c = '[' then
        match rest.dropWhile jsonWs with
        | ']' :: rest2 => some (.jarr [], rest2)
        | _ =>
          match pElems fuel (rest.dropWhile jsonWs) with
          | some (elems, rest2) => some (.jarr elems, rest2)
          | none => none
      else if c = '"' then
        match pStr fuel rest with
        | some (s, rest2) => some (.jstr s, rest2)
        | none => none
      else if c = 't' then
        if rest.take 3 = "rue".data then some (.jbool true, rest.drop 3) else none
      else if c = 'f' then
        if rest.take 4 = "alse".data then some (.jbool false, rest.drop 4) else none
      else if c = 'n' then
        if rest.take 3 = "ull".data then some (.jnull, rest.drop 3) else none
      else pNum (c :: rest)

/-- Parse the members of a JSON object, after the opening brace and any
whitespace, up to and including the closing brace. -/
def pMembers : Nat → List Char → Option (List (List Char × Json) × List Char)
  | 0, _ => none
  | fuel + 1, l =>
    match l with
    | '"' :: rest =>
      match pStr fuel rest with
      | some (key, rest2) =>
        match rest2.dropWhile jsonWs with
        | ':' :: rest3 =>
          match pValue fuel rest3 with
          | some (v, rest4) =>
            match rest4.dropWhile jsonWs with
            | ',' :: rest5 =>
              match pMembers fuel (rest5.dropWhile jsonWs) with
              | some (fields, rest6) => some ((key, v) :: fields, rest6)
              | none => none
            | '\x7d' :: rest5 => some ([(key, v)], rest5)
            | _ => none
          | none => none
        | _ => none
      | none => none
    | _ => none

/-- Parse the elements of a JSON array, after the opening bracket, up to
and including the closing bracket. -/
def pElems : Nat → List Char → Option (List Json × List Char)
  | 0, _ => none
  | fuel + 1, l =>
    match pValue fuel l with
    | some (v, rest) =>
      match rest.dropWhile jsonWs with
      | ',' :: rest2 =>
        match pElems fuel rest2 with
        | some (elems, rest3) => some (v :: elems, rest3)
        | none => none
      | ']' :: rest2 => some ([v], rest2)
      | _ => none
    | none => none

/-- Parse the remainder of a JSON string literal, after the opening quote. -/
def pStr : Nat → List Char → Option (List Char × List Char)
  | 0, _ => none
  | fuel + 1, l =>
    match l with
    | [] => none
    | '"' :: rest => some ([], rest)
    | '\\' :: e :: rest =>
      match pStr fuel rest with
      | some (s, rest2) => some ('\\' :: e :: s, rest2)
      | none => none
    | c :: rest =>
      match pStr fuel rest with
      | some (s, rest2) => some (c :: s, rest2)
      | none => none

end

/-- Model of `JSON.parse` as a validity-checking parser: parse one value
and require only whitespace to remain.  Parsing is fuelled by the input
length, which bounds the recursion depth of any parsable input. -/
def jsonParse (l : List Char) : Option Json :=
  match pValue (l.length + 1) l with
  | some (v, rest) => if (rest.dropWhile jsonWs).isEmpty then some v else none
  | none => none

/-- Fuelled scan removing every occurrence of the regex `/```json\n?/g`
(every step consumes at least one character, so fuel = length suffices). -/
def stripJsonFencesAux : Nat → List Char → List Char
  | 0, l => l
  | fuel + 1, l =>
    match l with
    | [] => []
    | c :: rest =>
      if "```json\n".data.isPrefixOf (c :: rest) then stripJsonFencesAux fuel ((c :: rest).drop 8)
      else if "```json".data.isPrefixOf (c :: rest) then stripJsonFencesAux fuel ((c :: rest).drop 7)
      else c :: stripJsonFencesAux fuel rest

/-- Remove every occurrence of the regex `/```json\n?/g`. -/
def stripJsonFences (l : List Char) : List Char :=
  stripJsonFencesAux l.length l

/-- Fuelled scan removing every occurrence of the regex `/```\n?/g`. -/
def stripFencesAux : Nat → List Char → List Char
  | 0, l => l
  | fuel + 1, l =>
    match l with
    | [] => []
    | c :: rest =>
      if "```\n".data.isPrefixOf (c :: rest) then stripFencesAux fuel ((c :: rest).drop 4)
      else if "```".data.isPrefixOf (c :: rest) then stripFencesAux fuel ((c :: rest).drop 3)
      else c :: stripFencesAux fuel rest

/-- Remove every occurrence of the regex `/```\n?/g`. -/
def stripFences (l : List Char) : List Char :=
  stripFencesAux l.length l

/-- JavaScript property read `parsed[key]` on a parsed JSON value: `jobj`
lookup with the last duplicate key winning, `undefined` (`none`) otherwise. -/
def jGet (j : Json) (key : List Char) : Option Json :=
  match j with
  | .jobj fields => mapGet key fields.reverse
  | _ => none

/-- The result record of `routeQuery` (fields may be `undefined`). -/
structure RouteResult where
  action : Option Json
  expanded_query : Option Json
  rag_optimized_query : Option Json
  fixed_grammar : Option Json

/-- The `catch` branch of `routeQuery`: `{ action: "no_rag" }`. -/
def defaultNoRag : RouteResult :=
  { action := some (.jstr "no_rag".data)
    expanded_query := none
    rag_optimized_query := none
    fixed_grammar := none }

/-- The response handling of `ChatService.routeQuery`: trim the model
reply, strip code fences, trim again, `JSON.parse`, and read the four
fields; any parse failure (and the `TypeError` of a property read on
`null`) is caught and mapped to `{ action: "no_rag" }`. -/
def routeQueryModel (content : List Char) : RouteResult :=
  let trimmed := jsTrim content
  let jsonString := jsTrim (stripFences (stripJsonFences trimmed))
  match jsonParse jsonString with
  | none => defaultNoRag
  | some .jnull => defaultNoRag
  | some parsed =>
    { action := jGet parsed "action".data
      expanded_query := jGet parsed "expanded_query".data
      rag_optimized_query := jGet parsed "rag_optimized_query".data
      fixed_grammar := jGet parsed "fixed_grammar".data }

/-! ## Concrete inputs used by witnesses and counterexamples -/

/-- A concrete chunk metadata value (a single-chunk document, so chunk
expansion is a no-op on it). -/
def metaA : ChromaMeta :=
  { id := "DOC_0".data, document_code := "DOC".data, current_chunk := 0,
    total_chunks := 1, jenis := "UU".data, nomor := 7, tahun := 2021,
    tentang := "Iklim".data, tanggal_ditetapkan := "".data,
    tanggal_berlaku := "".data, status := "berlaku".data, dasar_hukum := [],
    view_link := none }

def chunkA : MergedChunk :=
  { content := "Pasal 1".data, metadata := metaA, docNum := 1, similarity := 2 }

def chunkB : MergedChunk :=
  { content := "Pasal 2".data, metadata := metaA, docNum := 2, similarity := 1 }

def metaStale : SessionMetadata :=
  { userId := some "u1".data, createdAt := 5, lastActive := 10, userAgent := none,
    ipAddress := none, sessionType := .general, extra := [] }

def sessionStale : Session :=
  { id := "a".data, messages := [{ role := .user, content := "hi".data }],
    metadata := metaStale }

def metaFresh : SessionMetadata :=
  { userId := none, createdAt := 90, lastActive := 95, userAgent := none,
    ipAddress := none, sessionType := .rag, extra := [] }

def sessionFresh : Session :=
  { id := "b".data, messages := [{ role := .assistant, content := "yo".data }],
    metadata := metaFresh }

/-- A concrete store with one stale and one fresh session. -/
def storeC9 : StorageState :=
  { maxMessages := 4,
    sessions := [("a".data, sessionStale), ("b".data, sessionFresh)],
    userSessions := [] }

/-- Five concrete messages (one more than the default window of 4); the
last one carries a `$...$` wrapper to exercise redaction. -/
def msgsW : List Message :=
  [{ role := .user, content := "one".data },
   { role := .assistant, content := "two".data },
   { role := .user, content := "three".data },
   { role := .assistant, content := "four".data },
   { role := .user, content := "ctx stuff $five$".data }]

/-! ## Helper lemmas on the JS string primitives -/

theorem jsTrim_isInfix (l : List Char) : jsTrim l <:+: l := by
  have h1 : l.dropWhile jsWhitespace <:+ l := List.dropWhile_suffix _
  have h2 :
      ((l.dropWhile jsWhitespace).reverse.dropWhile jsWhitespace).reverse <+:
        l.dropWhile jsWhitespace := by
    have h3 :
        (l.dropWhile jsWhitespace).reverse.dropWhile jsWhitespace <:+
          (l.dropWhile jsWhitespace).reverse := List.dropWhile_suffix _
    have h4 := (@List.reverse_prefix Char
      ((l.dropWhile jsWhitespace).reverse.dropWhile jsWhitespace)
      (l.dropWhile jsWhitespace).reverse).mpr h3
    simpa using h4
  exact h2.isInfix.trans h1.isInfix

theorem jsTrim_length_le (l : List Char) : (jsTrim l).length ≤ l.length :=
  (jsTrim_isInfix l).sublist.length_le

theorem firstWrapped_no_dollar :
    ∀ {c : List Char} {body : List Char}, firstWrapped c = some body → '$' ∉ body := by
  intro c
  induction c with
  | nil => intro body h; simp [firstWrapped] at h
  | cons d rest ih =>
    intro body h
    by_cases hd : d = '$'
    · simp only [firstWrapped, if_pos hd] at h
      split at h
      · split at h
        · exact ih h
        · intro hmem
          cases h
          have := List.mem_takeWhile_imp hmem
          simp at this
      · exact ih h
    · simp only [firstWrapped, if_neg hd] at h
      exact ih h

/-! ## Claim C10 -/

/-- Claim C10 (confirmed): the `createSimpleHash` in `utils/requestUtils.ts`
and the private `SessionStorage.createSimpleHash` compute the same function
on every input string, so the connection fingerprints built at the two call
sites agree. -/
theorem claimC10_hashes_agree :
    (∀ s : List Char, requestUtils_createSimpleHash s = sessionStorage_createSimpleHash s) ∧
    (∀ ip ua : List Char, requestUtils_fingerprint ip ua = sessionStorage_fingerprint ip ua) :=
  ⟨fun _ => rfl, fun _ _ => rfl⟩

/-! ## Claim C2 -/

/-- Claim C2 counterexample: the claim states that a stored user message
never contains the begin/end context markers, yet a user message that
*is* the begin marker (no `$...$` wrapper present) is stored verbatim by
`addMessage`'s redaction, markers included. -/
theorem claimC2_cex :
    "___begin_context___".data <:+:
      (cleanMessage { role := Role.user, content := "___begin_context___".data }).content := by
  decide

/-- Claim C2 (corrected): for a user message, when the content matches the
wrapper regex `\$([^$]+)\$` the stored content is the **whitespace-trimmed**
first wrapped substring (the code applies `match[1].trim()`); it then
contains no `$` and contains no substring (in particular neither context
marker) that was not already inside the wrapped body.  Without a wrapper the
content is stored verbatim — which is why marker-freedom cannot hold
unconditionally.  The spec's example redacts to exactly `"hello"`. -/
theorem claimC2_amended (c : List Char) :
    (∀ body, firstWrapped c = some body →
      extractQueryFromMessage c = jsTrim body ∧
      '$' ∉ extractQueryFromMessage c ∧
      ∀ t : List Char, ¬ t <:+: body → ¬ t <:+: extractQueryFromMessage c) ∧
    (firstWrapped c = none → extractQueryFromMessage c = c) ∧
    extractQueryFromMessage
        "___begin_context___\nX\n___end_context___\n...\n$hello$".data =
      "hello".data := by
  refine ⟨?_, ?_, by decide⟩
  · intro body h
    have hext : extractQueryFromMessage c = jsTrim body := by
      simp [extractQueryFromMessage, h]
    refine ⟨hext, ?_, ?_⟩
    · rw [hext]
      intro hmem
      exact firstWrapped_no_dollar h ((jsTrim_isInfix body).subset hmem)
    · intro t ht hinf
      rw [hext] at hinf
      exact ht (hinf.trans (jsTrim_isInfix body))
  · intro h
    simp [extractQueryFromMessage, h]

/-- Witness for claim C2 at a concrete wrapped input. -/
theorem claimC2_witness :
    extractQueryFromMessage "foo $ bar $ baz".data = jsTrim " bar ".data ∧
    '$' ∉ extractQueryFromMessage "foo $ bar $ baz".data :=
  ⟨((claimC2_amended "foo $ bar $ baz".data).1 " bar ".data (by decide)).1,
    ((claimC2_amended "foo $ bar $ baz".data).1 " bar ".data (by decide)).2.1⟩

/-! ## Claims C3 and C8: the overlap merge -/

theorem findOverlapAux_le (t1 t2 : List Char) (n : Nat) : findOverlapAux t1 t2 n ≤ n := by
  induction n with
  | zero => simp [findOverlapAux]
  | succ k ih =>
    unfold findOverlapAux
    split
    · exact Nat.le_refl _
    · exact ih.trans (Nat.le_succ k)

theorem findOverlapAux_overlapEq (t1 t2 : List Char) (n : Nat)
    (h : 0 < findOverlapAux t1 t2 n) :
    overlapEq t1 t2 (findOverlapAux t1 t2 n) := by
  induction n with
  | zero => simp [findOverlapAux] at h
  | succ k ih =>
    by_cases hc : overlapEq t1 t2 (k + 1)
    · simp [findOverlapAux, hc]
    · simp only [findOverlapAux, if_neg hc] at h ⊢
      exact ih h

theorem findOverlapAux_greatest (t1 t2 : List Char) (n : Nat) :
    ∀ l, findOverlapAux t1 t2 n < l → l ≤ n → ¬ overlapEq t1 t2 l := by
  induction n with
  | zero =>
    intro l h1 h2
    simp [findOverlapAux] at h1
    exact absurd h2 (by omega)
  | succ k ih =>
    intro l h1 h2
    by_cases hc : overlapEq t1 t2 (k + 1)
    · simp only [findOverlapAux, if_pos hc] at h1
      exact absurd h2 (by omega)
    · simp only [findOverlapAux, if_neg hc] at h1
      by_cases hl : l = k + 1
      · subst hl; exact hc
      · exact ih l h1 (by omega)

theorem findOverlap_le_trim_lengths (a b : List Char) :
    findOverlap a b ≤ (jsTrim a).length ∧ findOverlap a b ≤ (jsTrim b).length := by
  have h := findOverlapAux_le (jsTrim a) (jsTrim b) (min (jsTrim a).length (jsTrim b).length)
  constructor <;>
    · show findOverlapAux _ _ _ ≤ _
      omega

/-- Claim C3 counterexample: the claim's merge formula "`A` with its last
`L` characters removed followed by `B`" fails when `A` carries trailing
whitespace, because the code removes the overlap from the *trimmed* `A`.
For `A = "abc "`, `B = "c"` the code yields `"abc"`, not `"abcc"`. -/
theorem claimC3_cex :
    mergeChunks "abc ".data "c".data ≠
      "abc ".data.take ("abc ".data.length - findOverlap "abc ".data "c".data) ++ "c".data := by
  decide

/-- Claim C3 (corrected): the overlap length `L = findOverlap A B` is the
longest length — searched from `min(len(trim A), len(trim B))` down to 1 —
at which a suffix of the **trimmed** `A` case-insensitively equals a prefix
of the **trimmed** `B`; when `L > 0` the merged text is the trimmed `A`
with its last `L` characters removed followed by `B` (untrimmed), and
otherwise it is the trimmed `A`, one space, and `B`.  The spec's two
examples hold as stated. -/
theorem claimC3_amended (a b : List Char) :
    (0 < findOverlap a b →
      overlapEq (jsTrim a) (jsTrim b) (findOverlap a b) ∧
      mergeChunks a b = (jsTrim a).take ((jsTrim a).length - findOverlap a b) ++ b) ∧
    (∀ l, findOverlap a b < l → l ≤ min (jsTrim a).length (jsTrim b).length →
      ¬ overlapEq (jsTrim a) (jsTrim b) l) ∧
    (findOverlap a b = 0 → mergeChunks a b = jsTrim a ++ (' ' :: b)) ∧
    mergeChunks "the quick brown".data "brown fox jumps".data =
      "the quick brown fox jumps".data ∧
    mergeChunks "abc".data "xyz".data = "abc xyz".data := by
  refine ⟨?_, ?_, ?_, by decide, by decide⟩
  · intro h
    exact ⟨findOverlapAux_overlapEq _ _ _ h, by simp [mergeChunks, h]⟩
  · exact fun l h1 h2 => findOverlapAux_greatest (jsTrim a) (jsTrim b) _ l h1 h2
  · intro h
    simp [mergeChunks, h]

/-- Witness for claim C3 at a concrete overlapping input. -/
theorem claimC3_witness :
    0 < findOverlap "abc ".data "c".data ∧
    mergeChunks "abc ".data "c".data =
      (jsTrim "abc ".data).take
          ((jsTrim "abc ".data).length - findOverlap "abc ".data "c".data) ++ "c".data :=
  ⟨by decide, ((claimC3_amended "abc ".data "c".data).1 (by decide)).2⟩

/-- Claim C8 counterexample: the merge result can be shorter than
`max(len(A), len(B))` when `A` has surrounding whitespace — the code trims
`A` before removing the overlap, so characters of `A` outside the overlap
*are* dropped.  For `A = "ab "`, `B = "b"` the result `"ab"` has length 2,
below `max(3, 1)`. -/
theorem claimC8_cex :
    (mergeChunks "ab ".data "b".data).length < max "ab ".data.length "b".data.length := by
  decide

/-- Claim C8 (corrected): the merge keeps every character of the *trimmed*
first chunk outside the detected overlap (as a prefix of the result) and
every character of the second chunk (as a suffix), and the result is never
shorter than `max(len(trim A), len(B))`.  The bound against the untrimmed
`A` fails (see the counterexample). -/
theorem claimC8_amended (a b : List Char) :
    (jsTrim a).take ((jsTrim a).length - findOverlap a b) <+: mergeChunks a b ∧
    b <:+ mergeChunks a b ∧
    max (jsTrim a).length b.length ≤ (mergeChunks a b).length := by
  have hL := findOverlap_le_trim_lengths a b
  have hb := jsTrim_length_le b
  by_cases h : 0 < findOverlap a b
  · have hm : mergeChunks a b =
        (jsTrim a).take ((jsTrim a).length - findOverlap a b) ++ b := by
      simp [mergeChunks, h]
    refine ⟨⟨b, hm.symm⟩, ⟨_, hm.symm⟩, ?_⟩
    rw [hm]
    simp only [List.length_append, List.length_take]
    omega
  · have h0 : findOverlap a b = 0 := by omega
    have hm : mergeChunks a b = jsTrim a ++ (' ' :: b) := by simp [mergeChunks, h0]
    refine ⟨?_, ⟨jsTrim a ++ [' '], by rw [hm]; simp⟩, ?_⟩
    · rw [h0, Nat.sub_zero, List.take_length]
      exact ⟨' ' :: b, hm.symm⟩
    · rw [hm]
      simp only [List.length_append, List.length_cons]
      omega

/-! ## Claim C1: the sliding window -/

theorem mapGet_mapSet_self [DecidableEq κ] (k : κ) (v : α) (m : List (κ × α)) :
    mapGet k (mapSet k v m) = some v := by
  induction m with
  | nil => simp [mapSet, mapGet]
  | cons p rest ih =>
    by_cases hp : p.1 = k
    · simp [mapSet, mapGet, hp]
    · simp [mapSet, mapGet, hp, ih]

theorem mapGet_mapSet_ne [DecidableEq κ] {k k' : κ} (h : k' ≠ k) (v : α) (m : List (κ × α)) :
    mapGet k' (mapSet k v m) = mapGet k' m := by
  induction m with
  | nil =>
    simp only [mapSet, mapGet]
    rw [if_neg (fun hk => h hk.symm)]
  | cons p rest ih =>
    by_cases hp : p.1 = k
    · subst hp
      simp only [mapSet, if_pos rfl, mapGet]
      rw [if_neg (fun hk => h hk.symm), if_neg (fun hk => h hk.symm)]
    · simp only [mapSet, if_neg hp]
      by_cases hp' : p.1 = k'
      · simp [mapGet, hp']
      · simp [mapGet, hp', ih]

theorem saveSession_sessions (now : Nat) (s : Session) (st : StorageState) :
    (saveSession now s st).sessions =
      mapSet s.id { s with metadata := { s.metadata with lastActive := now } } st.sessions := by
  cases h : s.metadata.userId <;> simp [saveSession, h]

theorem saveSession_maxMessages (now : Nat) (s : Session) (st : StorageState) :
    (saveSession now s st).maxMessages = st.maxMessages := by
  cases h : s.metadata.userId <;> simp [saveSession, h]

theorem addMessage_maxMessages (now : Nat) (sessionId : List Char) (m : Message)
    (st : StorageState) :
    (addMessage now sessionId m st).maxMessages = st.maxMessages := by
  unfold addMessage
  cases h : mapGet sessionId st.sessions <;>
    simp [h, createSession, saveSession_maxMessages]

/-- One `addMessage` on a state where the session already exists (and is
keyed consistently). -/
theorem addMessage_step_some (now : Nat) (sessionId : List Char) (m : Message)
    (st : StorageState) (s : Session)
    (hs : mapGet sessionId st.sessions = some s) (hid : s.id = sessionId) :
    mapGet sessionId (addMessage now sessionId m st).sessions =
      some { id := s.id,
             messages := listAddMessage st.maxMessages s.messages m,
             metadata := { s.metadata with lastActive := now } } := by
  unfold addMessage
  simp only [hs]
  rw [saveSession_sessions]
  simp only [listAddMessage]
  rw [hid]
  exact mapGet_mapSet_self _ _ _

/-- One `addMessage` on a state where the session is absent: lazy creation
then save. -/
theorem addMessage_step_none (now : Nat) (sessionId : List Char) (m : Message)
    (st : StorageState) (hs : mapGet sessionId st.sessions = none) :
    mapGet sessionId (addMessage now sessionId m st).sessions =
      some { id := sessionId,
             messages := listAddMessage st.maxMessages [] m,
             metadata := { userId := none, createdAt := now, lastActive := now,
                           userAgent := none, ipAddress := none,
                           sessionType := .general, extra := [] } } := by
  unfold addMessage
  simp only [hs, createSession]
  rw [saveSession_sessions]
  simp only [listAddMessage]
  exact mapGet_mapSet_self _ _ _

/-- Folding `addMessage` over a message list, starting from a state where
the session exists: the message list evolves by `listAddMessage`. -/
theorem addMessage_fold_messages (W now : Nat) (sessionId : List Char) :
    ∀ (ms : List Message) (st : StorageState) (s : Session),
      st.maxMessages = W →
      mapGet sessionId st.sessions = some s →
      s.id = sessionId →
      Option.map Session.messages
          (mapGet sessionId
            ((ms.foldl (fun acc m => addMessage now sessionId m acc) st).sessions)) =
        some (ms.foldl (listAddMessage W) s.messages) := by
  intro ms
  induction ms with
  | nil =>
    intro st s _ hs _
    simp [hs]
  | cons m rest ih =>
    intro st s hW hs hid
    simp only [List.foldl_cons]
    have hstep := addMessage_step_some now sessionId m st s hs hid
    rw [hW] at hstep
    have hmax : (addMessage now sessionId m st).maxMessages = W := by
      rw [addMessage_maxMessages, hW]
    rw [ih (addMessage now sessionId m st) _ hmax hstep hid]

/-- The pure sliding-window recurrence: trimming after appending to a
window equals the window of the extended list. -/
theorem trimHistory_lastN (W : Nat) (hW : 1 ≤ W) (xs : List Message) (c : Message) :
    trimHistory W (lastN W xs ++ [c]) = lastN W (xs ++ [c]) := by
  by_cases hn : xs.length < W
  · have h1 : lastN W xs = xs := by
      unfold lastN
      rw [Nat.sub_eq_zero_of_le (Nat.le_of_lt hn), List.drop_zero]
    have h2 : lastN W (xs ++ [c]) = xs ++ [c] := by
      unfold lastN
      rw [Nat.sub_eq_zero_of_le (by simp; omega), List.drop_zero]
    rw [h1, h2]
    unfold trimHistory
    rw [if_neg (by simp; omega)]
  · push_neg at hn
    have hlen : (lastN W xs).length = W := by
      unfold lastN
      rw [List.length_drop]
      omega
    unfold trimHistory
    rw [if_pos (by simp [hlen])]
    unfold jsSliceNeg
    rw [if_neg (by omega)]
    unfold lastN
    rw [List.drop_append_eq_append_drop, List.drop_append_eq_append_drop,
      List.length_append, List.length_append, List.length_drop]
    simp only [List.length_cons, List.length_nil, List.length_drop, List.drop_drop]
    congr 2 <;> omega

/-- Folding the per-list append-and-trim over any message sequence, from a
window state. -/
theorem foldl_listAddMessage (W : Nat) (hW : 1 ≤ W) :
    ∀ (ms : List Message) (xs : List Message),
      ms.foldl (listAddMessage W) (lastN W xs) = lastN W (xs ++ ms.map cleanMessage) := by
  intro ms
  induction ms with
  | nil => intro xs; simp
  | cons m rest ih =>
    intro xs
    simp only [List.foldl_cons, List.map_cons]
    have h1 : listAddMessage W (lastN W xs) m = lastN W (xs ++ [cleanMessage m]) :=
      trimHistory_lastN W hW xs (cleanMessage m)
    rw [h1, ih (xs ++ [cleanMessage m])]
    simp

/-- Claim C1 (confirmed): starting from a fresh store with window size
`W ≥ 1` (the repository instantiates `new SessionStorage(4)`), after any
non-empty sequence of `addMessage` calls the session's stored message list
is exactly the last `W` of the appended (redacted) messages in append
order, and in particular never exceeds `W` individual messages. -/
theorem claimC1_sliding_window (W now : Nat) (hW : 1 ≤ W) (sessionId : List Char)
    (ms : List Message) (hms : ms ≠ []) :
    Option.map Session.messages
        (mapGet sessionId
          ((ms.foldl (fun acc m => addMessage now sessionId m acc)
              (SessionStorageInit W)).sessions)) =
      some (lastN W (ms.map cleanMessage)) ∧
    (lastN W (ms.map cleanMessage)).length ≤ W := by
  constructor
  · obtain ⟨m, rest, rfl⟩ := List.exists_cons_of_ne_nil hms
    simp only [List.foldl_cons]
    have h1 := addMessage_step_none now sessionId m (SessionStorageInit W) rfl
    have hmax : (addMessage now sessionId m (SessionStorageInit W)).maxMessages = W := by
      rw [addMessage_maxMessages]; rfl
    have h2 := addMessage_fold_messages W now sessionId rest
      (addMessage now sessionId m (SessionStorageInit W)) _ hmax h1 rfl
    rw [h2]
    have hnil : lastN W ([] : List Message) = [] := by
      unfold lastN; simp
    have h3 : rest.foldl (listAddMessage W)
        (listAddMessage (SessionStorageInit W).maxMessages [] m) =
        (m :: rest).foldl (listAddMessage W) (lastN W []) := by
      rw [hnil]; rfl
    rw [h3, foldl_listAddMessage W hW]
    simp
  · unfold lastN
    rw [List.length_drop]
    omega

/-- Witness for claim C1: window 4, five appended messages. -/
theorem claimC1_witness :
    Option.map Session.messages
        (mapGet "s".data
          ((msgsW.foldl (fun acc m => addMessage 0 "s".data m acc)
              (SessionStorageInit 4)).sessions)) =
      some (lastN 4 (msgsW.map cleanMessage)) ∧
    (lastN 4 (msgsW.map cleanMessage)).length ≤ 4 :=
  claimC1_sliding_window 4 0 (by decide) "s".data msgsW (by decide)

/-! ## Claim C9: the inactivity sweep -/

/-- Sessions whose id never occurs in the iterated entries are untouched by
the sweep fold. -/
theorem sweep_fold_untouched (now threshold : Nat) (sessionId : List Char) :
    ∀ (es : List (List Char × Session)) (acc : StorageState × Nat),
      (∀ p ∈ es, p.2.id = p.1) →
      sessionId ∉ es.map Prod.fst →
      mapGet sessionId ((es.foldl (sweepStep now threshold) acc).1).sessions =
        mapGet sessionId acc.1.sessions := by
  intro es
  induction es with
  | nil => intro acc _ _; rfl
  | cons e rest ih =>
    intro acc hid hnot
    simp only [List.map_cons, List.mem_cons, not_or] at hnot
    have hne : sessionId ≠ e.1 := hnot.1
    have hid1 : e.2.id = e.1 := hid e (List.mem_cons_self e rest)
    simp only [List.foldl_cons]
    rw [ih _ (fun p hp => hid p (List.mem_cons_of_mem _ hp)) hnot.2]
    unfold sweepStep
    by_cases hc : (now : Int) - (e.2.metadata.lastActive : Int) > (threshold : Int)
    · rw [if_pos hc]
      show mapGet sessionId (saveSession now { e.2 with messages := [] } acc.1).sessions = _
      rw [saveSession_sessions]
      exact mapGet_mapSet_ne (by show sessionId ≠ e.2.id; rw [hid1]; exact hne) _ _
    · rw [if_neg hc]

/-- The sweep fold maps the tracked session to its cleared-and-saved or
untouched form, according to the inactivity condition. -/
theorem sweep_fold_touched (now threshold : Nat) (sessionId : List Char) (s : Session) :
    ∀ (es : List (List Char × Session)) (acc : StorageState × Nat),
      (es.map Prod.fst).Nodup →
      (∀ p ∈ es, p.2.id = p.1) →
      mapGet sessionId es = some s →
      mapGet sessionId acc.1.sessions = some s →
      mapGet sessionId ((es.foldl (sweepStep now threshold) acc).1).sessions =
        some (if (now : Int) - (s.metadata.lastActive : Int) > (threshold : Int)
              then { s with messages := [], metadata := { s.metadata with lastActive := now } }
              else s) := by
  intro es
  induction es with
  | nil => intro acc _ _ hlook _; simp [mapGet] at hlook
  | cons e rest ih =>
    intro acc hnd hid hlook hacc
    simp only [List.map_cons, List.nodup_cons] at hnd
    have hidtail : ∀ p ∈ rest, p.2.id = p.1 := fun p hp => hid p (List.mem_cons_of_mem _ hp)
    simp only [List.foldl_cons]
    by_cases heq : e.1 = sessionId
    · have hs : e.2 = s := by
        simp only [mapGet, if_pos heq, Option.some.injEq] at hlook
        exact hlook
      have hid1 : e.2.id = e.1 := hid e (List.mem_cons_self e rest)
      have hnotin : sessionId ∉ rest.map Prod.fst := heq ▸ hnd.1
      rw [sweep_fold_untouched now threshold sessionId rest _ hidtail hnotin]
      subst hs
      unfold sweepStep
      by_cases hc : (now : Int) - (e.2.metadata.lastActive : Int) > (threshold : Int)
      · rw [if_pos hc, if_pos hc]
        show mapGet sessionId (saveSession now { e.2 with messages := [] } acc.1).sessions = _
        rw [saveSession_sessions]
        have hkey : ({ e.2 with messages := [] } : Session).id = sessionId := by
          show e.2.id = sessionId
          rw [hid1, heq]
        rw [hkey]
        exact mapGet_mapSet_self _ _ _
      · rw [if_neg hc, if_neg hc]
        exact hacc
    · have hlook' : mapGet sessionId rest = some s := by
        simpa only [mapGet, if_neg heq] using hlook
      have hacc' : mapGet sessionId ((sweepStep now threshold acc e).1).sessions = some s := by
        unfold sweepStep
        by_cases hc : (now : Int) - (e.2.metadata.lastActive : Int) > (threshold : Int)
        · rw [if_pos hc]
          show mapGet sessionId (saveSession now { e.2 with messages := [] } acc.1).sessions = _
          rw [saveSession_sessions]
          rw [mapGet_mapSet_ne (by show sessionId ≠ e.2.id; rw [hid e (List.mem_cons_self e rest)]; exact fun h => heq h.symm) _ _]
          exact hacc
        · rw [if_neg hc]
          exact hacc
      exact ih _ hnd.2 hidtail hlook' hacc'

/-- Claim C9 counterexample: the claim states that an affected session's
metadata is unchanged by the sweep, but `clearInactiveSessions` clears via
`saveSession`, which refreshes `lastActive`; after sweeping `storeC9` at
time 100, session `"a"` is *not* stored as "same metadata, empty
messages". -/
theorem claimC9_cex :
    mapGet "a".data ((clearInactiveSessions 100 50 storeC9).1).sessions ≠
      some { sessionStale with messages := [] } := by
  decide

/-- Claim C9 (corrected): on a well-formed store (unique keys, entries
keyed by their session's id), `clearInactiveSessions(threshold)` empties
the message list of exactly those sessions with `now − lastActive >
threshold` and leaves every other session entirely unchanged; for an
affected session every metadata field except `lastActive` — in particular
its creation time and user id — is preserved, while `lastActive` is
refreshed to the sweep time by the `saveSession` call. -/
theorem claimC9_amended (now threshold : Nat) (st : StorageState)
    (sessionId : List Char) (s : Session)
    (hnd : (st.sessions.map Prod.fst).Nodup)
    (hid : ∀ p ∈ st.sessions, p.2.id = p.1)
    (hs : mapGet sessionId st.sessions = some s) :
    mapGet sessionId ((clearInactiveSessions now threshold st).1).sessions =
      some (if (now : Int) - (s.metadata.lastActive : Int) > (threshold : Int)
            then { s with messages := [], metadata := { s.metadata with lastActive := now } }
            else s) := by
  unfold clearInactiveSessions
  exact sweep_fold_touched now threshold sessionId s st.sessions (st, 0) hnd hid hs hs

/-- Witness for claim C9 on the concrete two-session store. -/
theorem claimC9_witness :
    mapGet "a".data ((clearInactiveSessions 100 50 storeC9).1).sessions =
      some (if (100 : Int) - (sessionStale.metadata.lastActive : Int) > (50 : Int)
            then { sessionStale with
                    messages := ([] : List Message),
                    metadata := { sessionStale.metadata with lastActive := 100 } }
            else sessionStale) :=
  claimC9_amended 100 50 storeC9 "a".data sessionStale (by decide) (by decide) (by decide)

/-! ## Claim C4: the empty-selection fallback -/

theorem mem_intersperse {α : Type} (sep : α) :
    ∀ {xs : List α} {x : α}, x ∈ xs → x ∈ xs.intersperse sep := by
  intro xs
  induction xs with
  | nil => intro x h; simp at h
  | cons b tl ih =>
    intro x h
    cases tl with
    | nil => simpa using h
    | cons c tl2 =>
      rw [List.intersperse_cons_cons]
      rcases List.mem_cons.mp h with rfl | h2
      · exact List.mem_cons_self _ _
      · exact List.mem_cons_of_mem _ (List.mem_cons_of_mem _ (ih h2))

theorem selectChunks_nil_ids (m : List MergedChunk) : selectChunks m [] = m := by
  simp [selectChunks]

theorem selectChunks_ne_nil (m : List MergedChunk) (ids : List Int) (hm : m ≠ []) :
    selectChunks m ids ≠ [] := by
  by_cases h : (List.filter (fun chunk => decide ((chunk.docNum : Int) ∈ ids)) m).isEmpty
  · simpa [selectChunks, h] using hm
  · intro hcon
    apply h
    simp only [selectChunks, if_neg h] at hcon
    simp [hcon]

theorem content_infix_formatDocument (c : MergedChunk) (n : Int) :
    c.content <:+: formatDocument c n :=
  ⟨"[".data ++ intToChars n ++ "]\nJenis: ".data ++ c.metadata.jenis ++
      "\nNomor: ".data ++ intToChars c.metadata.nomor ++
      "\nTahun: ".data ++ intToChars c.metadata.tahun ++
      "\nTentang: ".data ++ c.metadata.tentang ++ "\n\n".data,
    "\n\n---".data, by simp [formatDocument, List.append_assoc]⟩

theorem finalContextBody_infix_contextPrompt (m : List MergedChunk) (ids : List Int)
    (q : List Char) :
    finalContextBody m ids <:+: contextPrompt m ids q :=
  ⟨"___begin_context___\n".data,
    instructionBlock ++ "$".data ++ q ++ "$".data,
    by simp [contextPrompt, List.append_assoc]⟩

/-- Claim C4 (confirmed): when the evaluator's selection is empty the
selection stage falls back to every merged fragment, the final selection is
never empty while merged fragments exist, and with an empty `ids` list the
assembled context prompt contains every merged fragment's text. -/
theorem claimC4_empty_selection (m : List MergedChunk) (ids : List Int) (q : List Char) :
    selectChunks m [] = m ∧
    (m ≠ [] → selectChunks m ids ≠ []) ∧
    (∀ c ∈ m, c.content <:+: contextPrompt m [] q) := by
  refine ⟨selectChunks_nil_ids m, selectChunks_ne_nil m ids, ?_⟩
  intro c hc
  have h1 : c.content <:+: formatDocument c (jsIndexOf [] (c.docNum : Int) + 1) :=
    content_infix_formatDocument c _
  have h2 : formatDocument c (jsIndexOf [] (c.docNum : Int) + 1) ∈ renderSelected m [] := by
    unfold renderSelected
    rw [selectChunks_nil_ids]
    exact List.mem_map_of_mem _ hc
  have h3 : formatDocument c (jsIndexOf [] (c.docNum : Int) + 1) <:+: finalContextBody m [] := by
    unfold finalContextBody
    exact List.infix_of_mem_flatten (mem_intersperse _ h2)
  exact h1.trans (h3.trans (finalContextBody_infix_contextPrompt m [] q))

/-- Witness for claim C4 on a concrete two-fragment list. -/
theorem claimC4_witness :
    selectChunks [chunkA, chunkB] [] = [chunkA, chunkB] ∧
    selectChunks [chunkA, chunkB] [7] ≠ [] ∧
    chunkA.content <:+: contextPrompt [chunkA, chunkB] [] "tanya".data :=
  ⟨(claimC4_empty_selection [chunkA, chunkB] [7] "tanya".data).1,
    (claimC4_empty_selection [chunkA, chunkB] [7] "tanya".data).2.1 (List.cons_ne_nil _ _),
    (claimC4_empty_selection [chunkA, chunkB] [7] "tanya".data).2.2 chunkA
      (List.mem_cons_self _ _)⟩

/-! ## Claim C5: the re-rendering numbers -/

theorem jsIndexOf_append_cons (x : Int) :
    ∀ (pre suf : List Int), x ∉ pre → jsIndexOf (pre ++ x :: suf) x = pre.length := by
  intro pre
  induction pre with
  | nil => intro suf _; simp [jsIndexOf]
  | cons a pre' ih =>
    intro suf hx
    simp only [List.mem_cons, not_or] at hx
    simp only [List.cons_append, jsIndexOf, List.append_eq]
    rw [if_neg (fun h => hx.1 h.symm), ih suf hx.2]
    rw [if_neg (by omega)]
    simp

theorem renderNumbered_of_ids_match (ids : List Int) (hnd : ids.Nodup) :
    ∀ (sel : List MergedChunk) (pre rest' : List Int),
      ids = pre ++ rest' →
      rest' = sel.map (fun c => (c.docNum : Int)) →
      (sel.map fun chunk => formatDocument chunk (jsIndexOf ids (chunk.docNum : Int) + 1)) =
        specRenderNumbered ((pre.length : Int) + 1) sel := by
  intro sel
  induction sel with
  | nil =>
    intro pre rest' _ h2
    simp [specRenderNumbered]
  | cons c sel' ih =>
    intro pre rest' hids hrest
    subst hrest
    simp only [List.map_cons] at hids
    have hpre : (c.docNum : Int) ∉ pre := by
      intro hmem
      have hd := List.disjoint_of_nodup_append (hids ▸ hnd)
      exact hd hmem (List.mem_cons_self _ _)
    have h0 : jsIndexOf ids (c.docNum : Int) = pre.length := by
      rw [hids]
      exact jsIndexOf_append_cons _ pre _ hpre
    simp only [List.map_cons, specRenderNumbered]
    rw [h0]
    simp only [List.cons.injEq]
    refine ⟨trivial, ?_⟩
    have hids' : ids = (pre ++ [(c.docNum : Int)]) ++ sel'.map (fun c => (c.docNum : Int)) := by
      rw [hids]; simp
    have harg : (((pre ++ [(c.docNum : Int)]).length : Int) + 1) =
        ((pre.length : Int) + 1 + 1) := by
      simp only [List.length_append, List.length_singleton]
      push_cast
      ring
    have hrec := ih (pre ++ [(c.docNum : Int)]) _ hids' rfl
    rw [hrec, harg]

/-- Claim C5 counterexample: in the empty-selection fallback the k-th
rendered fragment does **not** carry header number `k`; with `ids = []`
every fragment is rendered with `indexOf`-derived header number 0. -/
theorem claimC5_cex :
    renderSelected [chunkA] [] ≠ [formatDocument chunkA 1] := by
  decide

/-- Claim C5 (corrected): the re-rendered header numbers come from
`evaluation.ids.indexOf(chunk.docNum) + 1`, not from an unconditional fresh
1..N count.  When the evaluator's `ids` are exactly the docNums of the
fragments they select, in selection order and without duplicates, the
rendering does carry fresh sequential numbers 1..N (the source-side
rendering coincides with the spec-side `specRenderNumbered 1`); in the
empty-selection fallback every fragment is rendered with header number 0.
The final prompt always ends with the literal question wrapped in the
`$...$` delimiter. -/
theorem claimC5_amended (m : List MergedChunk) (ids : List Int) (q : List Char)
    (hne : ids ≠ []) (hnd : ids.Nodup)
    (hmatch : ids =
      (m.filter fun chunk => decide ((chunk.docNum : Int) ∈ ids)).map
        (fun c => (c.docNum : Int))) :
    renderSelected m ids = specRenderNumbered 1 (selectChunks m ids) ∧
    renderSelected m [] = m.map (fun c => formatDocument c 0) ∧
    ("$".data ++ q ++ "$".data) <:+ contextPrompt m ids q := by
  refine ⟨?_, ?_, ?_⟩
  · have hfil : (m.filter fun chunk => decide ((chunk.docNum : Int) ∈ ids)) ≠ [] := by
      intro h
      rw [h] at hmatch
      simp at hmatch
      exact hne hmatch
    have hsc : selectChunks m ids =
        m.filter fun chunk => decide ((chunk.docNum : Int) ∈ ids) := by
      unfold selectChunks
      rw [if_neg (by simpa [List.isEmpty_iff] using hfil)]
    unfold renderSelected
    rw [hsc]
    have := renderNumbered_of_ids_match ids hnd
      (m.filter fun chunk => decide ((chunk.docNum : Int) ∈ ids)) [] ids (by simp) hmatch
    simpa using this
  · unfold renderSelected
    rw [selectChunks_nil_ids]
    apply List.map_congr_left
    intro a _
    norm_num [jsIndexOf]
  · exact ⟨"___begin_context___\n".data ++ finalContextBody m ids ++ instructionBlock,
      by simp [contextPrompt, List.append_assoc]⟩

/-- Witness for claim C5 on a selection whose ids match in order. -/
theorem claimC5_witness :
    renderSelected [chunkA, chunkB] [1, 2] =
      specRenderNumbered 1 (selectChunks [chunkA, chunkB] [1, 2]) ∧
    ("$".data ++ "tanya".data ++ "$".data) <:+
      contextPrompt [chunkA, chunkB] [1, 2] "tanya".data :=
  ⟨(claimC5_amended [chunkA, chunkB] [1, 2] "tanya".data (by decide) (by decide)
      (by decide)).1,
    (claimC5_amended [chunkA, chunkB] [1, 2] "tanya".data (by decide) (by decide)
      (by decide)).2.2⟩

/-! ## Claim C6: distance-to-similarity conversion -/

/-- Claim C6 counterexample: a present distance of `0` yields similarity
`0`, not `1 − 0 = 1` — `distances[i] ? 1 - distances[i] : 0` treats the
falsy value `0` like a missing distance. -/
theorem claimC6_cex :
    (buildMergedChunks (fun _ _ => none) ["x".data] [metaA] [0]).map
        (fun c => c.similarity) ≠ [1 - 0] := by
  have hb : buildMergedChunks (fun _ _ => none) ["x".data] [metaA] [0] =
      [{ content := "x".data, metadata := metaA, docNum := 1, similarity := 0 }] := rfl
  rw [hb]
  intro hcon
  simp only [List.map_cons, List.map_nil, List.cons.injEq] at hcon
  norm_num at hcon

/-- Claim C6 (corrected): for every chunk built by the assembler loop, the
similarity is `1 − distance` when a distance is present **and nonzero**,
and `0` when the distance is missing **or equals `0`** (JavaScript
truthiness of `distances[i]`). -/
theorem claimC6_amended (fetch : List Char → Nat → Option (List Char))
    (documents : List (List Char)) (metadatas : List ChromaMeta) (distances : List ℚ)
    (c : MergedChunk) (hc : c ∈ buildMergedChunks fetch documents metadatas distances) :
    ((distances[c.docNum - 1]? = none ∨ distances[c.docNum - 1]? = some 0) →
      c.similarity = 0) ∧
    (∀ d, distances[c.docNum - 1]? = some d → d ≠ 0 → c.similarity = 1 - d) := by
  unfold buildMergedChunks at hc
  rw [List.mem_filterMap] at hc
  obtain ⟨i, _, heq⟩ := hc
  cases hdoc : documents[i]? with
  | none => rw [hdoc] at heq; simp at heq
  | some content =>
    cases hmeta : metadatas[i]? with
    | none => rw [hdoc, hmeta] at heq; simp at heq
    | some metadata =>
      have heq2 : (if content.isEmpty then none
          else some { content := expandChunk fetch content metadata, metadata := metadata,
                      docNum := i + 1, similarity := mkSimilarity distances i }) = some c := by
        rw [hdoc, hmeta] at heq
        exact heq
      by_cases hemp : content.isEmpty
      · rw [if_pos hemp] at heq2
        exact absurd heq2 (by simp)
      · rw [if_neg hemp] at heq2
        injection heq2 with heq2
        subst heq2
        simp only [Nat.add_sub_cancel]
        constructor
        · rintro (h | h) <;> simp [mkSimilarity, h]
        · intro d hd hdne
          simp [mkSimilarity, hd, hdne]

/-- Witness for claim C6: a present nonzero distance `3` gives similarity
`1 − 3`. -/
theorem claimC6_witness :
    ({ content := "x".data, metadata := metaA, docNum := 1,
        similarity := 1 - (3 : ℚ) } : MergedChunk).similarity = 1 - (3 : ℚ) := by
  have hb : buildMergedChunks (fun _ _ => none) ["x".data] [metaA] [3] =
      [{ content := "x".data, metadata := metaA, docNum := 1,
          similarity := 1 - (3 : ℚ) }] := rfl
  exact (claimC6_amended (fun _ _ => none) ["x".data] [metaA] [3] _
    (hb ▸ List.mem_singleton_self _)).2 3 rfl (by norm_num)

/-! ## Claim C7: the router fail-safe -/

/-- Claim C7 (confirmed): whenever the fence-stripped, trimmed model reply
fails to parse as JSON, `routeQuery` returns `{ action: "no_rag" }`.  The
embedding is a total function: the `try`/`catch` of the source admits no
escaping exception, which is the claim's "never throws". -/
theorem claimC7_router_failsafe (content : List Char)
    (h : (jsonParse (jsTrim (stripFences (stripJsonFences (jsTrim content))))).isNone = true) :
    routeQueryModel content = defaultNoRag := by
  rw [Option.isNone_iff_eq_none] at h
  simp only [routeQueryModel]
  rw [h]

/-- Witness for claim C7 on a concrete fenced non-JSON reply. -/
theorem claimC7_witness :
    routeQueryModel "```json\nI cannot classify this```".data = defaultNoRag :=
  claimC7_router_failsafe _ (by decide)

end IndoClimate
